import Mathlib

/-!
Verification of the rebalancing engine of the risk_model repository
(src/rebalancing.rs), as a shallow embedding in Lean 4.

Machine integers are modelled as `Nat` (for `u64` / `u128` values) and
`Int` (for `i64` values), with the saturating / wrapping behaviour of the
Rust operations made explicit:
  * `u64::saturating_add` clamps at `2^64 - 1`;
  * `u64::saturating_sub` clamps at `0` (which on `Nat` is plain subtraction);
  * `u128::saturating_mul` clamps at `2^128 - 1`;
  * `x as u64` on a `u128` truncates modulo `2^64`;
  * `x as i64` on a `u64` (and `i64` subtraction / negation in release
    builds) wraps into `[-2^63, 2^63)`;
  * `i64::saturating_sub` clamps into `[-2^63, 2^63 - 1]`;
  * `u128::saturating_div` panics when the divisor is zero — fallible
    spots are therefore wrapped in `Option`, `none` standing for a panic.

Rust `HashMap`s are modelled as association lists; the list order stands
for the (run-dependent) iteration order of the hash map.
-/

namespace RiskModel

/-- The four pool protocols, from `src/risk_model.rs`. -/
inductive Protocol where
  | Kamino
  | Solend
  | Drift
  | Marginfy
deriving DecidableEq, Repr

/-- Risk profile categories. The enum's own definition is not under
`src/` (only its use sites are); the variants are those used by the
repository's tests (`RiskProfile::Low/Medium/High`) and named in the spec
glossary. Only its identity as a key type matters to the claims. -/
inductive RiskProfile where
  | Low
  | Medium
  | High
deriving DecidableEq, Repr

/-- Largest `u64` value. -/
def U64_MAX : Nat := 2 ^ 64 - 1

/-- Largest `u128` value. -/
def U128_MAX : Nat := 2 ^ 128 - 1

/-- Rust `u64::saturating_add`. -/
def satAdd64 (x y : Nat) : Nat := min (x + y) U64_MAX

/-- Rust `u128::saturating_mul`. -/
def satMul128 (x y : Nat) : Nat := min (x * y) U128_MAX

/-- Cast of an `i64` value to `u64` (`as u64`): reduce modulo `2^64`. -/
def castU64 (x : Int) : Nat := (x % (2 ^ 64 : Int)).toNat

/-- Wrap an integer into the `i64` range `[-2^63, 2^63)`; this is the
`as i64` cast and also release-mode wrapping arithmetic on `i64`. -/
def wrapI64 (x : Int) : Int := (x + 2 ^ 63) % 2 ^ 64 - 2 ^ 63

/-- Rust `i64::saturating_sub`. -/
def satSubI64 (x y : Int) : Int := max (min (x - y) (2 ^ 63 - 1)) (-(2 ^ 63))

/-- Rust `i64::abs` (release-mode: wraps on `i64::MIN`). -/
def i64Abs (d : Int) : Int := wrapI64 (if d < 0 then -d else d)

/-- Lookup in an association list with a default, mirroring
`map.get(&k).unwrap_or(&d)`. -/
def lookupD {α β : Type} [DecidableEq α] : List (α × β) → α → β → β
  | [], _, d => d
  | (k, v) :: rest, key, d => if k = key then v else lookupD rest key d

/-- Lookup in an association list, mirroring `map.get(&k)` / `get_mut`. -/
def lookupKV {α β : Type} [DecidableEq α] : List (α × β) → α → Option β
  | [], _ => none
  | (k, v) :: rest, key => if k = key then some v else lookupKV rest key

/-- Store a value under a key, mirroring `HashMap` insertion semantics:
replace the existing entry, or add one if the key is absent. -/
def setKV {α β : Type} [DecidableEq α] : List (α × β) → α → β → List (α × β)
  | [], key, v => [(key, v)]
  | (k, w) :: rest, key, v =>
    if k = key then (key, v) :: rest else (k, w) :: setKV rest key v

/-- Sum of the values of an association list. -/
def sumVals {α : Type} (l : List (α × Nat)) : Nat := (l.map fun e => e.2).sum

/-- Allocation for a specific risk profile (`ProfileAllocation` in
`src/rebalancing.rs`): pool-to-amount map plus a stored running total. -/
structure ProfileAllocation where
  risk_profile : RiskProfile
  pool_allocations : List (Protocol × Nat)
  total_amount : Nat
deriving DecidableEq, Repr

/-- Portfolio for a single user (`UserPortfolio`); the wallet key is
abstracted to a number. -/
structure UserPortfolio where
  user_wallet : Nat
  risk_profiles : List (RiskProfile × ProfileAllocation)
  last_rebalance : Nat
deriving DecidableEq, Repr

/-- One deposit instruction returned to the transaction system
(`DepositToExecute`). -/
structure DepositToExecute where
  protocol : Protocol
  amount : Nat
  allocation_basis_points : Nat
deriving DecidableEq, Repr

/-- The scaled product `(x as u128 * bps as u128).saturating_div(10_000) as u64`
used by deposit (share), rebalance (target) and withdraw (per-pool
withdrawal). -/
def scaleByBps (x bps : Nat) : Nat := ((satMul128 x bps) / 10000) % 2 ^ 64

/-- One iteration of the deposit loop: credit the pool its floor share
(`saturating_add` onto the old stored amount, default `0`) and append
the matching instruction. -/
def depositStep (amount : Nat)
    (st : List (Protocol × Nat) × List DepositToExecute)
    (pb : Protocol × Nat) : List (Protocol × Nat) × List DepositToExecute :=
  let share := scaleByBps amount pb.2
  (setKV st.1 pb.1 (satAdd64 (lookupD st.1 pb.1 0) share),
    st.2 ++ [⟨pb.1, share, pb.2⟩])

/-- Core of `deposit` acting on one profile allocation: add the amount to
the stored total with `saturating_add`, then fold over the weight map,
crediting each pool its floor share and emitting one instruction per
weight entry. -/
def depositAlloc (weights : List (Protocol × Nat)) (alloc : ProfileAllocation)
    (amount : Nat) : ProfileAllocation × List DepositToExecute :=
  let alloc1 := { alloc with total_amount := satAdd64 alloc.total_amount amount }
  let res := weights.foldl (depositStep amount) (alloc1.pool_allocations, [])
  ({ alloc1 with pool_allocations := res.1 }, res.2)

/-- The source's `RebalancingSystem::deposit`: fetch the weight map for the profile,
create the profile allocation lazily, and apply `depositAlloc`. The
source's `Result<TransactionSystemDeposits, String>` is `Except String`;
the function only ever builds the `Ok` branch. -/
def deposit (weightsFor : RiskProfile → List (Protocol × Nat))
    (P : UserPortfolio) (profile : RiskProfile) (amount : Nat) :
    Except String (UserPortfolio × List DepositToExecute) :=
  let weights := weightsFor profile
  let alloc0 := (lookupKV P.risk_profiles profile).getD
    ⟨profile, [], 0⟩
  let res := depositAlloc weights alloc0 amount
  .ok ({ P with risk_profiles := setKV P.risk_profiles profile res.1 }, res.2)

/-- Error message of the `ProfileNotFound` case of `withdraw`. -/
def profileNotFoundMsg : String := "Risk profile not found in portfolio"

/-- Error message of the `InsufficientFunds` case of `withdraw`. -/
def insufficientFundsMsg : String := "Insufficient funds for withdrawal"

/-- The withdrawal proportion in basis points:
`(amount as u128 * 10_000).saturating_div(total) as u64`. Only evaluated
when `total` is nonzero (the zero case panics in the source). -/
def proportionBps (amount total : Nat) : Nat :=
  ((satMul128 amount 10000) / total) % 2 ^ 64

/-- The source's `RebalancingSystem::withdraw`. Returns the portfolio after the call
together with the `Result<(), String>`; the outer `Option` is `none`
exactly when the source panics (the `saturating_div` by a zero
`total_amount`, reachable when the profile exists with total `0` and the
requested amount is `0`). On both error returns the portfolio is the
input, mirroring the early returns before any mutation. -/
def withdraw (P : UserPortfolio) (profile : RiskProfile) (amount : Nat) :
    Option (UserPortfolio × Except String Unit) :=
  match lookupKV P.risk_profiles profile with
  | none => some (P, .error profileNotFoundMsg)
  | some alloc =>
    if amount > alloc.total_amount then
      some (P, .error insufficientFundsMsg)
    else if alloc.total_amount = 0 then
      none
    else
      let pbps := proportionBps amount alloc.total_amount
      let withdrawals := alloc.pool_allocations.map fun e =>
        (e.1, scaleByBps e.2 pbps, e.2 - scaleByBps e.2 pbps)
      let pools := withdrawals.foldl (fun acc w => setKV acc w.1 w.2.2)
        alloc.pool_allocations
      let alloc' := { alloc with
        pool_allocations := pools,
        total_amount := alloc.total_amount - amount }
      some ({ P with risk_profiles := setKV P.risk_profiles profile alloc' },
        .ok ())

/-- The signed delta of a pool in `rebalance_profile`:
`target.checked_sub(current)` cast to `i64` when `current ≤ target`,
otherwise `-(current as i64 - target as i64)` with wrapping casts. -/
def deltaOf (target current : Nat) : Int :=
  if current ≤ target then wrapI64 (Int.ofNat (target - current))
  else wrapI64 (-(wrapI64 (wrapI64 current - wrapI64 target)))

/-- The delta list of `rebalance_profile`: one entry per weight-map entry
(and only those), pairing each pool with `target - current`. -/
def profileDeltas (weights : List (Protocol × Nat)) (alloc : ProfileAllocation) :
    List (Protocol × Int) :=
  weights.map fun pb =>
    (pb.1, deltaOf (scaleByBps alloc.total_amount pb.2)
      (lookupD alloc.pool_allocations pb.1 0))

/-- Processing order of two surplus pools: sort by decreasing delta
(the source comparator `b.1.cmp(a.1)`). -/
def surplusOrder (a b : Protocol × Int) : Prop := b.2 ≤ a.2

/-- Processing order of two deficit pools: sort by increasing delta, most
negative first (the source comparator `a.1.cmp(b.1)`). -/
def deficitOrder (a b : Protocol × Int) : Prop := a.2 ≤ b.2

instance : DecidableRel surplusOrder := fun a b => Int.decLe b.2 a.2

instance : DecidableRel deficitOrder := fun a b => Int.decLe a.2 b.2

instance : IsTotal (Protocol × Int) surplusOrder :=
  ⟨fun a b => Int.le_total b.2 a.2⟩

instance : IsTrans (Protocol × Int) surplusOrder :=
  ⟨fun _ _ _ h1 h2 => le_trans h2 h1⟩

instance : IsTotal (Protocol × Int) deficitOrder :=
  ⟨fun a b => Int.le_total a.2 b.2⟩

instance : IsTrans (Protocol × Int) deficitOrder :=
  ⟨fun _ _ _ h1 h2 => le_trans h1 h2⟩

/-- The surplus pools (`delta > 0`) in processing order: Rust's stable
`sort_by` is the stable sort, i.e. insertion sort on the non-strict
order. -/
def surplusList (weights : List (Protocol × Nat)) (alloc : ProfileAllocation) :
    List (Protocol × Int) :=
  List.insertionSort surplusOrder
    ((profileDeltas weights alloc).filter fun pd => 0 < pd.2)

/-- The deficit pools (`delta < 0`) in processing order (most negative
first). -/
def deficitList (weights : List (Protocol × Nat)) (alloc : ProfileAllocation) :
    List (Protocol × Int) :=
  List.insertionSort deficitOrder
    ((profileDeltas weights alloc).filter fun pd => pd.2 < 0)

/-- The inner matching loop of `rebalance_profile` for one surplus pool:
scan the deficit list (whose deltas are never updated by the source),
move `min(remaining as u64, delta.abs() as u64)` per step, crediting the
surplus pool with `saturating_add` and debiting the deficit pool with
`saturating_sub`, and stop once the remaining need is `≤ 0`. -/
def execTransfers (toPool : Protocol) :
    List (Protocol × Int) → Int → List (Protocol × Nat) →
    List (Protocol × Protocol × Nat) →
    List (Protocol × Nat) × List (Protocol × Protocol × Nat)
  | [], _, pools, ts => (pools, ts)
  | (fromPool, nd) :: rest, remaining, pools, ts =>
    if remaining ≤ 0 ∨ 0 ≤ nd then
      execTransfers toPool rest remaining pools ts
    else
      let transferAmount := min (castU64 remaining) (castU64 (i64Abs nd))
      let pools1 :=
        if 0 < transferAmount then
          let poolsA := setKV pools toPool
            (satAdd64 (lookupD pools toPool 0) transferAmount)
          setKV poolsA fromPool ((lookupD poolsA fromPool 0) - transferAmount)
        else pools
      let ts1 :=
        if 0 < transferAmount then ts ++ [(fromPool, toPool, transferAmount)]
        else ts
      let remaining1 :=
        if 0 < transferAmount then
          satSubI64 remaining (wrapI64 (Int.ofNat transferAmount))
        else remaining
      if remaining1 ≤ 0 then (pools1, ts1)
      else execTransfers toPool rest remaining1 pools1 ts1

/-- The source's `RebalancingSystem::rebalance_profile`: compute per-pool deltas for
the pools named in the weight map, split and sort them, and run the
greedy matching, recording every executed transfer. Returns the mutated
allocation and the transfer list (kept internal by the source, surfaced
here as the observable plan). -/
def rebalance_profile (weights : List (Protocol × Nat))
    (alloc : ProfileAllocation) :
    ProfileAllocation × List (Protocol × Protocol × Nat) :=
  let negs := deficitList weights alloc
  let res := (surplusList weights alloc).foldl
    (fun st pd => execTransfers pd.1 negs pd.2 st.1 st.2)
    (alloc.pool_allocations, [])
  ({ alloc with pool_allocations := res.1 }, res.2)

/-- The source's `RebalancingSystem::rebalance`: rebalance every profile of the
portfolio, then set the last-rebalance timestamp to the current time
(passed explicitly as `now`). The source's `Result` is always `Ok`; the
concatenated transfer plans are returned for observation. -/
def rebalance (weightsFor : RiskProfile → List (Protocol × Nat))
    (P : UserPortfolio) (now : Nat) :
    UserPortfolio × List (Protocol × Protocol × Nat) :=
  let results := P.risk_profiles.map fun pa =>
    (pa.1, rebalance_profile (weightsFor pa.1) pa.2)
  ({ P with
      risk_profiles := results.map fun r => (r.1, r.2.1),
      last_rebalance := now },
    (results.map fun r => r.2.2).flatten)

/-- The spec's Scenario A weight map
`{Kamino:5000, Drift:3000, Marginfy:1000, Solend:1000}` (one fixed
iteration order). -/
def weightsScenarioA : List (Protocol × Nat) :=
  [(Protocol.Kamino, 5000), (Protocol.Drift, 3000),
   (Protocol.Marginfy, 1000), (Protocol.Solend, 1000)]

/-- The allocation reached by Scenario A: deposit `1,000,000,000` under
`weightsScenarioA`. -/
def allocScenarioA : ProfileAllocation :=
  ⟨RiskProfile.High,
   [(Protocol.Kamino, 500000000), (Protocol.Drift, 300000000),
    (Protocol.Marginfy, 100000000), (Protocol.Solend, 100000000)],
   1000000000⟩

/-- The allocation reached by Scenario B: withdraw `250,000,000` from the
Scenario A state. -/
def allocScenarioB : ProfileAllocation :=
  ⟨RiskProfile.High,
   [(Protocol.Kamino, 375000000), (Protocol.Drift, 225000000),
    (Protocol.Marginfy, 75000000), (Protocol.Solend, 75000000)],
   750000000⟩

/-- A profile allocation exhibiting the matching bug: total `100` held as
`Drift 60, Marginfy 40`. -/
def allocOverdraw : ProfileAllocation :=
  ⟨RiskProfile.High, [(Protocol.Drift, 60), (Protocol.Marginfy, 40)], 100⟩

/-- Weight map `{Kamino:4000, Solend:3000, Drift:2000, Marginfy:1000}`
(sums to 10,000, all delta magnitudes distinct). -/
def weightsOverdraw : List (Protocol × Nat) :=
  [(Protocol.Kamino, 4000), (Protocol.Solend, 3000),
   (Protocol.Drift, 2000), (Protocol.Marginfy, 1000)]

/-- A profile allocation with tied delta magnitudes: total `100` held as
`Drift 50, Marginfy 50` under an equal four-way weight map. -/
def allocTied : ProfileAllocation :=
  ⟨RiskProfile.High, [(Protocol.Drift, 50), (Protocol.Marginfy, 50)], 100⟩

/-- Equal four-way weight map, one iteration order. -/
def weightsTiedFirst : List (Protocol × Nat) :=
  [(Protocol.Kamino, 2500), (Protocol.Solend, 2500),
   (Protocol.Drift, 2500), (Protocol.Marginfy, 2500)]

/-- The same weight map as `weightsTiedFirst` (equal as a finite map) in
another iteration order. -/
def weightsTiedSecond : List (Protocol × Nat) :=
  [(Protocol.Solend, 2500), (Protocol.Kamino, 2500),
   (Protocol.Marginfy, 2500), (Protocol.Drift, 2500)]

end RiskModel

namespace RiskModel

/-! ### Association-list and arithmetic helper lemmas -/

theorem lookupD_setKV_self {α β : Type} [DecidableEq α] :
    ∀ (l : List (α × β)) (k : α) (v d : β), lookupD (setKV l k v) k d = v
  | [], k, v, d => by simp [setKV, lookupD]
  | (k', w) :: rest, k, v, d => by
    by_cases h : k' = k
    · simp [setKV, h, lookupD]
    · simp [setKV, h, lookupD, lookupD_setKV_self rest k v d]

theorem lookupD_setKV_ne {α β : Type} [DecidableEq α] :
    ∀ (l : List (α × β)) (k p : α) (v d : β), p ≠ k →
      lookupD (setKV l k v) p d = lookupD l p d
  | [], k, p, v, d, hne => by
    simp only [setKV, lookupD]
    exact if_neg (fun h => hne h.symm)
  | (k', w) :: rest, k, p, v, d, hne => by
    simp only [setKV]
    by_cases h : k' = k
    · rw [if_pos h]
      subst h
      simp only [lookupD]
      rw [if_neg (fun h2 => hne h2.symm), if_neg (fun h2 => hne h2.symm)]
    · rw [if_neg h]
      simp only [lookupD]
      by_cases h2 : k' = p
      · rw [if_pos h2, if_pos h2]
      · rw [if_neg h2, if_neg h2]
        exact lookupD_setKV_ne rest k p v d hne

theorem lookupKV_setKV_self {α β : Type} [DecidableEq α] :
    ∀ (l : List (α × β)) (k : α) (v : β), lookupKV (setKV l k v) k = some v
  | [], k, v => by simp [setKV, lookupKV]
  | (k', w) :: rest, k, v => by
    by_cases h : k' = k
    · simp [setKV, h, lookupKV]
    · simp [setKV, h, lookupKV, lookupKV_setKV_self rest k v]

theorem sumVals_cons {α : Type} (k : α) (w : Nat) (l : List (α × Nat)) :
    sumVals ((k, w) :: l) = w + sumVals l := by
  simp [sumVals]

theorem sumVals_setKV {α : Type} [DecidableEq α] :
    ∀ (l : List (α × Nat)) (k : α) (v : Nat),
      sumVals (setKV l k v) + lookupD l k 0 = sumVals l + v
  | [], k, v => by simp [setKV, sumVals, lookupD]
  | (k', w) :: rest, k, v => by
    by_cases h : k' = k
    · simp only [setKV, if_pos h, lookupD, sumVals_cons]
      omega
    · have ih := sumVals_setKV rest k v
      simp only [setKV, if_neg h, lookupD, sumVals_cons]
      omega

theorem lookupD_le_sumVals {α : Type} [DecidableEq α] :
    ∀ (l : List (α × Nat)) (k : α), lookupD l k 0 ≤ sumVals l
  | [], k => by simp [lookupD, sumVals]
  | (k', w) :: rest, k => by
    by_cases h : k' = k
    · simp [lookupD, h, sumVals]
    · have := lookupD_le_sumVals rest k
      simp only [lookupD, if_neg h, sumVals_cons]
      omega

theorem satAdd64_eq_of_le {x y : Nat} (h : x + y ≤ U64_MAX) : satAdd64 x y = x + y :=
  min_eq_left h

theorem satAdd64_le_add (x y : Nat) : satAdd64 x y ≤ x + y :=
  min_le_left _ _

theorem scaleByBps_eq {x b : Nat} (hx : x < 2 ^ 64) (hb : b ≤ 10000) :
    scaleByBps x b = x * b / 10000 := by
  have h1 : x * b ≤ 2 ^ 128 - 1 := by
    have : x * b ≤ (2 ^ 64 - 1) * 10000 :=
      Nat.mul_le_mul (by omega) hb
    omega
  have h2 : x * b / 10000 < 2 ^ 64 := by
    have hxb : x * b / 10000 ≤ x * 10000 / 10000 :=
      Nat.div_le_div_right (Nat.mul_le_mul_left x hb)
    rw [Nat.mul_div_cancel x (by norm_num)] at hxb
    omega
  unfold scaleByBps satMul128 U128_MAX
  rw [min_eq_left h1, Nat.mod_eq_of_lt h2]

theorem scaleByBps_le {x b : Nat} (hx : x < 2 ^ 64) (hb : b ≤ 10000) :
    scaleByBps x b ≤ x := by
  rw [scaleByBps_eq hx hb]
  have := Nat.div_le_div_right (c := 10000) (Nat.mul_le_mul_left x hb)
  rwa [Nat.mul_div_cancel x (by norm_num)] at this

theorem div_add_div_le_add_div (x y d : Nat) : x / d + y / d ≤ (x + y) / d := by
  rcases Nat.eq_zero_or_pos d with h | h
  · subst h; simp
  · rw [Nat.le_div_iff_mul_le h, Nat.add_mul]
    exact Nat.add_le_add (Nat.div_mul_le_self x d) (Nat.div_mul_le_self y d)

theorem sum_mul_div_le (a d : Nat) :
    ∀ bs : List Nat, (bs.map fun b => a * b / d).sum ≤ a * bs.sum / d
  | [] => by simp
  | b :: rest => by
    simp only [List.map_cons, List.sum_cons]
    calc a * b / d + (rest.map fun b => a * b / d).sum
        ≤ a * b / d + a * rest.sum / d :=
          Nat.add_le_add_left (sum_mul_div_le a d rest) _
      _ ≤ (a * b + a * rest.sum) / d := div_add_div_le_add_div _ _ _
      _ = a * (b + rest.sum) / d := by rw [Nat.mul_add]

/-! ### Deposit lemmas -/

theorem depositFold_snd (a : Nat) :
    ∀ (weights : List (Protocol × Nat)) (st : List (Protocol × Nat) × List DepositToExecute),
      (weights.foldl (depositStep a) st).2 =
        st.2 ++ weights.map fun pb => ⟨pb.1, scaleByBps a pb.2, pb.2⟩
  | [], st => by simp
  | pb :: rest, st => by
    simp only [List.foldl_cons, List.map_cons]
    rw [depositFold_snd a rest]
    simp [depositStep]

theorem sumVals_depositFold_le (a : Nat) :
    ∀ (weights : List (Protocol × Nat)) (st : List (Protocol × Nat) × List DepositToExecute),
      sumVals (weights.foldl (depositStep a) st).1 ≤
        sumVals st.1 + (weights.map fun pb => scaleByBps a pb.2).sum
  | [], st => by simp
  | pb :: rest, st => by
    simp only [List.foldl_cons, List.map_cons, List.sum_cons]
    have hstep : sumVals (depositStep a st pb).1 ≤ sumVals st.1 + scaleByBps a pb.2 := by
      have h1 := sumVals_setKV st.1 pb.1 (satAdd64 (lookupD st.1 pb.1 0) (scaleByBps a pb.2))
      have h2 := satAdd64_le_add (lookupD st.1 pb.1 0) (scaleByBps a pb.2)
      simp only [depositStep]
      omega
    have ih := sumVals_depositFold_le a rest (depositStep a st pb)
    omega

theorem sum_scaleByBps_le {a : Nat} (weights : List (Protocol × Nat))
    (ha : a < 2 ^ 64) (hbps : (weights.map fun pb => pb.2).sum ≤ 10000) :
    (weights.map fun pb => scaleByBps a pb.2).sum ≤ a := by
  have hb : ∀ pb ∈ weights, pb.2 ≤ 10000 := by
    intro pb hpb
    exact le_trans
      (List.single_le_sum (fun x _ => Nat.zero_le x) _ (List.mem_map_of_mem _ hpb)) hbps
  have hmap : (weights.map fun pb => scaleByBps a pb.2) =
      weights.map fun pb => a * pb.2 / 10000 := by
    apply List.map_congr_left
    intro pb hpb
    exact scaleByBps_eq ha (hb pb hpb)
  rw [hmap]
  have h1 : (weights.map fun pb => a * pb.2 / 10000).sum ≤
      a * (weights.map fun pb => pb.2).sum / 10000 := by
    have := sum_mul_div_le a 10000 (weights.map fun pb => pb.2)
    simpa [List.map_map, Function.comp] using this
  have h2 : a * (weights.map fun pb => pb.2).sum / 10000 ≤ a := by
    have := Nat.div_le_div_right (c := 10000) (Nat.mul_le_mul_left a hbps)
    rwa [Nat.mul_div_cancel a (by norm_num)] at this
  omega

end RiskModel

namespace RiskModel

/-! ### Claim theorems: deposit -/

/-- C10: deposit never fails. For every weight source, portfolio, risk
profile and amount (including amount 0 and an absent profile), `deposit`
returns `Ok`, carrying exactly one instruction per entry of the weight
map, in the weight map's order; the error branch of the result type is
never built. -/
theorem deposit_never_fails (wf : RiskProfile → List (Protocol × Nat))
    (P : UserPortfolio) (profile : RiskProfile) (a : Nat) :
    ∃ r, deposit wf P profile a = Except.ok r ∧
      r.2 = (wf profile).map (fun pb => ⟨pb.1, scaleByBps a pb.2, pb.2⟩) ∧
      r.2.map (fun d => d.protocol) = (wf profile).map (fun pb => pb.1) ∧
      r.2.length = (wf profile).length := by
  refine ⟨_, rfl, ?_⟩
  have h : (depositAlloc (wf profile)
      ((lookupKV P.risk_profiles profile).getD ⟨profile, [], 0⟩) a).2 =
      (wf profile).map fun pb => ⟨pb.1, scaleByBps a pb.2, pb.2⟩ := by
    unfold depositAlloc
    rw [depositFold_snd]
    simp
  refine ⟨h, ?_, ?_⟩
  · rw [h, List.map_map]
    rfl
  · rw [h, List.length_map]

/-- C3 (counterexample): the claim says the total after a deposit equals
the total before plus the amount, exactly; but the source adds with
`u64::saturating_add`, so depositing `1` into a profile whose total is
already `u64::MAX` leaves the total at `u64::MAX`, not `u64::MAX + 1`. -/
theorem deposit_total_saturation_counterexample :
    deposit (fun _ => [(Protocol.Kamino, 10000)])
        ⟨0, [(RiskProfile.Low, ⟨RiskProfile.Low, [], U64_MAX⟩)], 0⟩ RiskProfile.Low 1 =
      Except.ok
        (⟨0, [(RiskProfile.Low,
            ⟨RiskProfile.Low, [(Protocol.Kamino, 1)], U64_MAX⟩)], 0⟩,
          [⟨Protocol.Kamino, 1, 10000⟩]) ∧
    U64_MAX ≠ U64_MAX + 1 := by
  constructor
  · rfl
  · decide

/-- C3 (amended): after any deposit the stored total is
`min(old_total + amount, u64::MAX)` — exact addition whenever the sum
fits in a `u64`, silently clamped at `u64::MAX` otherwise; the old total
is `0` when the profile allocation is created lazily by this deposit. -/
theorem deposit_total_saturating_add (wf : RiskProfile → List (Protocol × Nat))
    (P : UserPortfolio) (profile : RiskProfile) (a : Nat) :
    ∃ r alloc', deposit wf P profile a = Except.ok r ∧
      lookupKV r.1.risk_profiles profile = some alloc' ∧
      alloc'.total_amount =
        min (((lookupKV P.risk_profiles profile).getD
          ⟨profile, [], 0⟩).total_amount + a) U64_MAX := by
  exact ⟨_, _, rfl, lookupKV_setKV_self _ _ _, rfl⟩

/-- C2 (counterexample): the claim says the stored total equals the sum
of the per-pool amounts after every operation; but depositing `1` under
the weight map `{Kamino:5000, Drift:5000}` floors both shares to `0`,
leaving total `1` against a pool sum of `0`. -/
theorem deposit_total_vs_pool_sum_counterexample :
    deposit (fun _ => [(Protocol.Kamino, 5000), (Protocol.Drift, 5000)])
        ⟨0, [], 0⟩ RiskProfile.Low 1 =
      Except.ok
        (⟨0, [(RiskProfile.Low,
            ⟨RiskProfile.Low, [(Protocol.Kamino, 0), (Protocol.Drift, 0)], 1⟩)], 0⟩,
          [⟨Protocol.Kamino, 0, 5000⟩, ⟨Protocol.Drift, 0, 5000⟩]) ∧
    sumVals [((Protocol.Kamino : Protocol), (0 : Nat)), (Protocol.Drift, 0)] = 0 ∧
    (1 : Nat) ≠ 0 := by
  refine ⟨rfl, rfl, by decide⟩

/-- C2 (amended): the central invariant survives deposits only as an
inequality. If the sum of per-pool amounts was at most the stored total
before a deposit, it is at most the stored total after the deposit
(under a weight map whose basis points sum to at most 10,000 and absent
`u64` overflow); exact equality fails in general because each share is
floor-divided. -/
theorem deposit_pool_sum_le_total (wf : RiskProfile → List (Protocol × Nat))
    (P : UserPortfolio) (profile : RiskProfile) (a : Nat)
    (hbps : ((wf profile).map fun pb => pb.2).sum ≤ 10000)
    (ha : a < 2 ^ 64)
    (hsum : sumVals (((lookupKV P.risk_profiles profile).getD
        ⟨profile, [], 0⟩).pool_allocations) ≤
      ((lookupKV P.risk_profiles profile).getD ⟨profile, [], 0⟩).total_amount)
    (hov : ((lookupKV P.risk_profiles profile).getD
        ⟨profile, [], 0⟩).total_amount + a ≤ U64_MAX) :
    ∃ r alloc', deposit wf P profile a = Except.ok r ∧
      lookupKV r.1.risk_profiles profile = some alloc' ∧
      sumVals alloc'.pool_allocations ≤ alloc'.total_amount := by
  refine ⟨_, _, rfl, lookupKV_setKV_self _ _ _, ?_⟩
  set alloc0 := (lookupKV P.risk_profiles profile).getD ⟨profile, [], 0⟩ with halloc0
  have htot : (depositAlloc (wf profile) alloc0 a).1.total_amount =
      alloc0.total_amount + a := by
    unfold depositAlloc
    exact satAdd64_eq_of_le hov
  have hpools : sumVals (depositAlloc (wf profile) alloc0 a).1.pool_allocations ≤
      sumVals alloc0.pool_allocations +
        ((wf profile).map fun pb => scaleByBps a pb.2).sum := by
    unfold depositAlloc
    exact sumVals_depositFold_le a (wf profile) (alloc0.pool_allocations, [])
  have hshares := sum_scaleByBps_le (wf profile) ha hbps
  rw [htot]
  omega

/-- Witness for the amended C2 theorem: the Scenario A deposit keeps the
pool sum at most the total (here they happen to be equal). -/
theorem deposit_pool_sum_le_total_witness :
    ∃ r alloc',
      deposit (fun _ => weightsScenarioA) ⟨0, [], 0⟩ RiskProfile.High 1000000000 =
        Except.ok r ∧
      lookupKV r.1.risk_profiles RiskProfile.High = some alloc' ∧
      sumVals alloc'.pool_allocations ≤ alloc'.total_amount :=
  deposit_pool_sum_le_total (fun _ => weightsScenarioA) ⟨0, [], 0⟩
    RiskProfile.High 1000000000 (by decide) (by decide) (by decide) (by decide)

end RiskModel

namespace RiskModel

theorem depositFold_fst_frame (a : Nat) :
    ∀ (weights : List (Protocol × Nat)) (st : List (Protocol × Nat) × List DepositToExecute)
      (p : Protocol), p ∉ weights.map Prod.fst →
      lookupD (weights.foldl (depositStep a) st).1 p 0 = lookupD st.1 p 0
  | [], st, p, _ => rfl
  | pb :: rest, st, p, h => by
    simp only [List.map_cons, List.mem_cons, not_or] at h
    simp only [List.foldl_cons]
    rw [depositFold_fst_frame a rest _ p h.2]
    simp only [depositStep]
    exact lookupD_setKV_ne _ _ _ _ _ h.1

theorem depositFold_fst_lookup (a : Nat) :
    ∀ (weights : List (Protocol × Nat)) (st : List (Protocol × Nat) × List DepositToExecute)
      (p : Protocol) (b : Nat),
      (weights.map Prod.fst).Nodup → (p, b) ∈ weights →
      lookupD (weights.foldl (depositStep a) st).1 p 0 =
        satAdd64 (lookupD st.1 p 0) (scaleByBps a b)
  | [], _, _, _, _, hmem => absurd hmem (List.not_mem_nil _)
  | pb :: rest, st, p, b, hnd, hmem => by
    simp only [List.map_cons, List.nodup_cons] at hnd
    simp only [List.foldl_cons]
    rcases List.mem_cons.mp hmem with heq | hmem'
    · have hp : pb.1 = p := by rw [← heq]
      rw [depositFold_fst_frame a rest _ p (hp ▸ hnd.1)]
      simp only [depositStep, ← heq]
      exact lookupD_setKV_self _ _ _ _
    · have hne : p ≠ pb.1 := by
        intro hcontra
        exact hnd.1 (hcontra ▸ List.mem_map_of_mem Prod.fst hmem')
      rw [depositFold_fst_lookup a rest _ p b hnd.2 hmem']
      simp only [depositStep]
      rw [lookupD_setKV_ne _ _ _ _ _ hne]

theorem sum_div_lower (a : Nat) :
    ∀ bs : List Nat,
      a * bs.sum ≤ 10000 * (bs.map fun b => a * b / 10000).sum + 9999 * bs.length
  | [] => by simp
  | b :: rest => by
    have h1 := Nat.div_add_mod (a * b) 10000
    have h2 : a * b % 10000 < 10000 := Nat.mod_lt _ (by norm_num)
    have ih := sum_div_lower a rest
    simp only [List.sum_cons, List.map_cons, List.length_cons, Nat.mul_add]
    omega

/-- C4: for a deposit of amount `a` under a weight map whose basis points
sum to 10,000 (distinct pools, no `u64` overflow on any pool), every pool
receives exactly `floor(a * bps / 10000)` — the double-width `u128`
product reduces to the pure floor — the emitted instructions carry those
shares, the shares sum to at most `a`, and the shortfall `a - sum(shares)`
is strictly less than the number of pools in the weight map. -/
theorem deposit_shares_exact (W : List (Protocol × Nat)) (alloc : ProfileAllocation)
    (a : Nat)
    (hsum : (W.map fun pb => pb.2).sum = 10000)
    (ha : a < 2 ^ 64)
    (hnd : (W.map Prod.fst).Nodup)
    (hov : ∀ pb ∈ W, lookupD alloc.pool_allocations pb.1 0 + a ≤ U64_MAX) :
    (depositAlloc W alloc a).2 = W.map (fun pb => ⟨pb.1, a * pb.2 / 10000, pb.2⟩) ∧
    (∀ pb ∈ W, lookupD (depositAlloc W alloc a).1.pool_allocations pb.1 0 =
      lookupD alloc.pool_allocations pb.1 0 + a * pb.2 / 10000) ∧
    (W.map fun pb => a * pb.2 / 10000).sum ≤ a ∧
    a < (W.map fun pb => a * pb.2 / 10000).sum + W.length := by
  have hb : ∀ pb ∈ W, pb.2 ≤ 10000 := by
    intro pb hpb
    exact hsum ▸
      List.single_le_sum (fun x _ => Nat.zero_le x) _ (List.mem_map_of_mem _ hpb)
  refine ⟨?_, ?_, ?_, ?_⟩
  · unfold depositAlloc
    rw [depositFold_snd]
    simp only [List.nil_append]
    exact List.map_congr_left fun pb hpb => by rw [scaleByBps_eq ha (hb pb hpb)]
  · intro pb hpb
    have h := depositFold_fst_lookup a W (alloc.pool_allocations, []) pb.1 pb.2 hnd hpb
    have hgoal : (depositAlloc W alloc a).1.pool_allocations =
        (W.foldl (depositStep a) (alloc.pool_allocations, [])).1 := rfl
    rw [hgoal, h, scaleByBps_eq ha (hb pb hpb)]
    exact satAdd64_eq_of_le (by
      show lookupD alloc.pool_allocations pb.1 0 + a * pb.2 / 10000 ≤ U64_MAX
      have hdiv : a * pb.2 / 10000 ≤ a := by
        have := Nat.div_le_div_right (c := 10000) (Nat.mul_le_mul_left a (hb pb hpb))
        rwa [Nat.mul_div_cancel a (by norm_num)] at this
      have := hov pb hpb
      omega)
  · have h1 : (W.map fun pb => a * pb.2 / 10000).sum ≤
        a * (W.map fun pb => pb.2).sum / 10000 := by
      have := sum_mul_div_le a 10000 (W.map fun pb => pb.2)
      simpa [List.map_map, Function.comp] using this
    rw [hsum] at h1
    rwa [Nat.mul_div_cancel a (by norm_num)] at h1
  · have h1 := sum_div_lower a (W.map fun pb => pb.2)
    rw [hsum] at h1
    have hlen : W ≠ [] := by
      intro hc
      rw [hc] at hsum
      simp at hsum
    have hpos : 0 < W.length := List.length_pos.mpr hlen
    have h2 : ((W.map fun pb => pb.2).map fun b => a * b / 10000) =
        W.map fun pb => a * pb.2 / 10000 := by
      rw [List.map_map]
      exact rfl
    rw [h2, List.length_map] at h1
    omega

/-- Witness for C4: the spec's Scenario A deposit of `1,000,000,000`
under `{Kamino:5000, Drift:3000, Marginfy:1000, Solend:1000}`. -/
theorem deposit_shares_exact_witness :
    (depositAlloc weightsScenarioA ⟨RiskProfile.High, [], 0⟩ 1000000000).2 =
      weightsScenarioA.map (fun pb => ⟨pb.1, 1000000000 * pb.2 / 10000, pb.2⟩) ∧
    lookupD (depositAlloc weightsScenarioA
        ⟨RiskProfile.High, [], 0⟩ 1000000000).1.pool_allocations Protocol.Kamino 0 =
      lookupD (⟨RiskProfile.High, [], 0⟩ : ProfileAllocation).pool_allocations
        Protocol.Kamino 0 + 1000000000 * 5000 / 10000 ∧
    (weightsScenarioA.map fun pb => 1000000000 * pb.2 / 10000).sum ≤ 1000000000 ∧
    1000000000 <
      (weightsScenarioA.map fun pb => 1000000000 * pb.2 / 10000).sum +
        weightsScenarioA.length := by
  have h := deposit_shares_exact weightsScenarioA ⟨RiskProfile.High, [], 0⟩ 1000000000
    (by decide) (by decide) (by decide) (by decide)
  exact ⟨h.1, h.2.1 (Protocol.Kamino, 5000) (by decide), h.2.2.1, h.2.2.2⟩

end RiskModel

namespace RiskModel

/-- C5: `withdraw` returns an error if and only if the referenced profile
has no allocation (then the ProfileNotFound message) or the requested
amount exceeds the allocation's stored total (then the InsufficientFunds
message); in every error case the returned portfolio is exactly the input
portfolio, no state having been mutated. (When the profile exists with
total `0` and the amount is `0`, the source panics on a zero divisor —
modelled as `none` — and returns no error; both sides of the equivalence
are false there.) -/
theorem withdraw_error_iff (P : UserPortfolio) (profile : RiskProfile) (a : Nat) :
    ((∃ e P', withdraw P profile a = some (P', Except.error e)) ↔
      (lookupKV P.risk_profiles profile = none ∨
        ∃ alloc, lookupKV P.risk_profiles profile = some alloc ∧
          alloc.total_amount < a)) ∧
    (lookupKV P.risk_profiles profile = none →
      withdraw P profile a = some (P, Except.error profileNotFoundMsg)) ∧
    (∀ alloc, lookupKV P.risk_profiles profile = some alloc →
      alloc.total_amount < a →
      withdraw P profile a = some (P, Except.error insufficientFundsMsg)) ∧
    (∀ P' e, withdraw P profile a = some (P', Except.error e) → P' = P) := by
  rcases h : lookupKV P.risk_profiles profile with _ | alloc
  · have hw : withdraw P profile a = some (P, Except.error profileNotFoundMsg) := by
      simp only [withdraw, h]
    refine ⟨⟨fun _ => Or.inl rfl, fun _ => ⟨profileNotFoundMsg, P, hw⟩⟩,
      fun _ => hw, ?_, ?_⟩
    · intro alloc hsome _
      exact absurd hsome (by simp)
    · intro P' e heq
      rw [hw] at heq
      injection heq with h1
      exact (congrArg Prod.fst h1).symm
  · by_cases hgt : alloc.total_amount < a
    · have hw : withdraw P profile a = some (P, Except.error insufficientFundsMsg) := by
        simp only [withdraw, h, if_pos hgt]
      refine ⟨⟨fun _ => Or.inr ⟨alloc, rfl, hgt⟩,
        fun _ => ⟨insufficientFundsMsg, P, hw⟩⟩, ?_, fun _ _ _ => hw, ?_⟩
      · intro hnone
        exact absurd hnone (by simp)
      · intro P' e heq
        rw [hw] at heq
        injection heq with h1
        exact (congrArg Prod.fst h1).symm
    · by_cases h0 : alloc.total_amount = 0
      · have hw : withdraw P profile a = none := by
          simp only [withdraw, h, if_neg hgt, if_pos h0]
        refine ⟨⟨?_, ?_⟩, ?_, ?_, ?_⟩
        · rintro ⟨e, P', heq⟩
          rw [hw] at heq
          exact absurd heq (by simp)
        · rintro (hnone | ⟨alloc', hsome, hlt⟩)
          · exact absurd hnone (by simp)
          · have halloc : alloc = alloc' := by injection hsome
            exact absurd (halloc ▸ hlt) hgt
        · intro hnone
          exact absurd hnone (by simp)
        · intro alloc' hsome hlt
          have halloc : alloc = alloc' := by injection hsome
          exact absurd (halloc ▸ hlt) hgt
        · intro P' e heq
          rw [hw] at heq
          exact absurd heq (by simp)
      · have hshape : ∃ Q, withdraw P profile a = some (Q, Except.ok ()) := by
          simp only [withdraw, h, if_neg hgt, if_neg h0]
          exact ⟨_, rfl⟩
        obtain ⟨Q, hQ⟩ := hshape
        refine ⟨⟨?_, ?_⟩, ?_, ?_, ?_⟩
        · rintro ⟨e, P', heq⟩
          rw [hQ] at heq
          simp at heq
        · rintro (hnone | ⟨alloc', hsome, hlt⟩)
          · exact absurd hnone (by simp)
          · have halloc : alloc = alloc' := by injection hsome
            exact absurd (halloc ▸ hlt) hgt
        · intro hnone
          exact absurd hnone (by simp)
        · intro alloc' hsome hlt
          have halloc : alloc = alloc' := by injection hsome
          exact absurd (halloc ▸ hlt) hgt
        · intro P' e heq
          rw [hQ] at heq
          simp at heq

/-- Witness for C5 at a concrete input: withdrawing from an empty
portfolio fails with the ProfileNotFound message and returns the
portfolio unchanged. -/
theorem withdraw_error_iff_witness :
    withdraw ⟨0, [], 0⟩ RiskProfile.Low 5 =
      some (⟨0, [], 0⟩, Except.error profileNotFoundMsg) :=
  (withdraw_error_iff ⟨0, [], 0⟩ RiskProfile.Low 5).2.1 (by decide)

end RiskModel

namespace RiskModel

theorem lookupD_foldl_setKV_frame {α β : Type} [DecidableEq α] :
    ∀ (updates : List (α × β)) (acc : List (α × β)) (p : α) (d : β),
      p ∉ updates.map Prod.fst →
      lookupD (updates.foldl (fun acc' u => setKV acc' u.1 u.2) acc) p d =
        lookupD acc p d
  | [], _, _, _, _ => rfl
  | u :: rest, acc, p, d, h => by
    simp only [List.map_cons, List.mem_cons, not_or] at h
    simp only [List.foldl_cons]
    rw [lookupD_foldl_setKV_frame rest _ p d h.2]
    exact lookupD_setKV_ne _ _ _ _ _ h.1

theorem lookupD_foldl_setKV_mem {α β : Type} [DecidableEq α] :
    ∀ (updates : List (α × β)) (acc : List (α × β)) (p : α) (v d : β),
      (updates.map Prod.fst).Nodup → (p, v) ∈ updates →
      lookupD (updates.foldl (fun acc' u => setKV acc' u.1 u.2) acc) p d = v
  | [], _, _, _, _, _, hmem => absurd hmem (List.not_mem_nil _)
  | u :: rest, acc, p, v, d, hnd, hmem => by
    simp only [List.map_cons, List.nodup_cons] at hnd
    simp only [List.foldl_cons]
    rcases List.mem_cons.mp hmem with heq | hmem'
    · have hp : u.1 = p := by rw [← heq]
      rw [lookupD_foldl_setKV_frame rest _ p d (hp ▸ hnd.1), ← heq]
      exact lookupD_setKV_self _ _ _ _
    · exact lookupD_foldl_setKV_mem rest _ p v d hnd.2 hmem'

theorem proportionBps_eq {a total : Nat} (ha : a ≤ total) (htot : total < 2 ^ 64)
    (hpos : 0 < total) : proportionBps a total = a * 10000 / total := by
  have h1 : a * 10000 ≤ 2 ^ 128 - 1 := by
    have : a * 10000 ≤ (2 ^ 64 - 1) * 10000 := Nat.mul_le_mul_right _ (by omega)
    omega
  have h2 : a * 10000 / total ≤ 10000 := by
    have hm := Nat.div_le_div_right (c := total) (Nat.mul_le_mul_right 10000 ha)
    rwa [Nat.mul_div_cancel_left 10000 hpos] at hm
  unfold proportionBps satMul128 U128_MAX
  rw [min_eq_left h1, Nat.mod_eq_of_lt (by omega)]

theorem proportionBps_le {a total : Nat} (ha : a ≤ total) (htot : total < 2 ^ 64)
    (hpos : 0 < total) : proportionBps a total ≤ 10000 := by
  rw [proportionBps_eq ha htot hpos]
  have hm := Nat.div_le_div_right (c := total) (Nat.mul_le_mul_right 10000 ha)
  rwa [Nat.mul_div_cancel_left 10000 hpos] at hm

/-- C6: a successful withdraw of `a` from an existing allocation with
`a ≤ total_amount` (and a positive total — the total-zero case panics
rather than succeeding) decreases the stored total by exactly `a`, and
sets every pool's amount to
`old - floor(old * proportion_bps / 10000)` where
`proportion_bps = floor(a * 10000 / old_total)`; the per-pool withdrawal
never exceeds the pool's old amount, so no pool goes negative. -/
theorem withdraw_success_exact (P : UserPortfolio) (profile : RiskProfile) (a : Nat)
    (alloc : ProfileAllocation)
    (hlk : lookupKV P.risk_profiles profile = some alloc)
    (hle : a ≤ alloc.total_amount)
    (hpos : 0 < alloc.total_amount)
    (htot : alloc.total_amount < 2 ^ 64)
    (hpools : ∀ e ∈ alloc.pool_allocations, e.2 < 2 ^ 64) :
    (alloc.pool_allocations.map Prod.fst).Nodup →
    ∃ alloc',
      withdraw P profile a =
        some ({ P with risk_profiles := setKV P.risk_profiles profile alloc' },
          Except.ok ()) ∧
      alloc'.total_amount = alloc.total_amount - a ∧
      alloc'.total_amount + a = alloc.total_amount ∧
      ∀ e ∈ alloc.pool_allocations,
        lookupD alloc'.pool_allocations e.1 0 =
          e.2 - e.2 * (a * 10000 / alloc.total_amount) / 10000 ∧
        e.2 * (a * 10000 / alloc.total_amount) / 10000 ≤ e.2 := by
  intro hnd
  have hngt : ¬ alloc.total_amount < a := Nat.not_lt.mpr hle
  have h0 : ¬ alloc.total_amount = 0 := by omega
  have hble : proportionBps a alloc.total_amount ≤ 10000 :=
    proportionBps_le hle htot hpos
  refine ⟨{ alloc with
      pool_allocations :=
        ((alloc.pool_allocations.map fun e =>
          (e.1, scaleByBps e.2 (proportionBps a alloc.total_amount),
            e.2 - scaleByBps e.2 (proportionBps a alloc.total_amount))).foldl
          (fun acc w => setKV acc w.1 w.2.2) alloc.pool_allocations),
      total_amount := alloc.total_amount - a }, ?_, rfl, by
        show alloc.total_amount - a + a = alloc.total_amount
        omega, ?_⟩
  · simp only [withdraw, hlk, if_neg hngt, if_neg h0]
  · intro e hmem
    have hfold :
        ((alloc.pool_allocations.map fun e' =>
          (e'.1, scaleByBps e'.2 (proportionBps a alloc.total_amount),
            e'.2 - scaleByBps e'.2 (proportionBps a alloc.total_amount))).foldl
          (fun acc w => setKV acc w.1 w.2.2) alloc.pool_allocations) =
        ((alloc.pool_allocations.map fun e' =>
          (e'.1, e'.2 - scaleByBps e'.2 (proportionBps a alloc.total_amount))).foldl
          (fun acc' u => setKV acc' u.1 u.2) alloc.pool_allocations) := by
      rw [List.foldl_map, List.foldl_map]
    have hkeys :
        ((alloc.pool_allocations.map fun e' =>
          (e'.1, e'.2 - scaleByBps e'.2 (proportionBps a alloc.total_amount))).map
            Prod.fst).Nodup := by
      rw [List.map_map]
      exact hnd
    have hlook := lookupD_foldl_setKV_mem
      (alloc.pool_allocations.map fun e' =>
        (e'.1, e'.2 - scaleByBps e'.2 (proportionBps a alloc.total_amount)))
      alloc.pool_allocations e.1
      (e.2 - scaleByBps e.2 (proportionBps a alloc.total_amount)) 0 hkeys
      (List.mem_map_of_mem _ hmem)
    have hscale : scaleByBps e.2 (proportionBps a alloc.total_amount) =
        e.2 * (a * 10000 / alloc.total_amount) / 10000 := by
      rw [scaleByBps_eq (hpools e hmem) hble, proportionBps_eq hle htot hpos]
    constructor
    · show lookupD ((alloc.pool_allocations.map fun e' =>
          (e'.1, scaleByBps e'.2 (proportionBps a alloc.total_amount),
            e'.2 - scaleByBps e'.2 (proportionBps a alloc.total_amount))).foldl
          (fun acc w => setKV acc w.1 w.2.2) alloc.pool_allocations) e.1 0 =
        e.2 - e.2 * (a * 10000 / alloc.total_amount) / 10000
      rw [hfold, hlook, hscale]
    · rw [← hscale]
      have := scaleByBps_le (hpools e hmem) hble
      omega

/-- Witness for C6: the spec's Scenario B — withdrawing `250,000,000`
from the Scenario A state succeeds, leaves total `750,000,000`, and
leaves Kamino holding `375,000,000`. -/
theorem withdraw_success_exact_witness :
    ∃ alloc',
      withdraw ⟨0, [(RiskProfile.High, allocScenarioA)], 0⟩ RiskProfile.High
          250000000 =
        some (⟨0, setKV [(RiskProfile.High, allocScenarioA)] RiskProfile.High alloc',
          0⟩, Except.ok ()) ∧
      alloc'.total_amount = 750000000 ∧
      lookupD alloc'.pool_allocations Protocol.Kamino 0 = 375000000 := by
  obtain ⟨alloc', h1, h2, h3, h4⟩ := withdraw_success_exact
    ⟨0, [(RiskProfile.High, allocScenarioA)], 0⟩ RiskProfile.High 250000000
    allocScenarioA (by rfl) (by decide) (by decide) (by decide) (by decide)
    (by decide)
  refine ⟨alloc', h1, ?_, ?_⟩
  · rw [h2]
    decide
  · have h5 := (h4 (Protocol.Kamino, 500000000) (by decide)).1
    rw [h5]
    decide

end RiskModel

namespace RiskModel

/-! ### Rebalance lemmas -/

theorem execTransfers_lookup_ne (toPool : Protocol) :
    ∀ (negs : List (Protocol × Int)) (remaining : Int) (pools : List (Protocol × Nat))
      (ts : List (Protocol × Protocol × Nat)) (p : Protocol),
      p ≠ toPool → p ∉ negs.map Prod.fst →
      lookupD (execTransfers toPool negs remaining pools ts).1 p 0 =
        lookupD pools p 0
  | [], _, _, _, _, _, _ => rfl
  | (fromPool, nd) :: rest, remaining, pools, ts, p, hto, hmem => by
    simp only [List.map_cons, List.mem_cons, not_or] at hmem
    simp only [execTransfers]
    by_cases hc : remaining ≤ 0 ∨ 0 ≤ nd
    · rw [if_pos hc]
      exact execTransfers_lookup_ne toPool rest remaining pools ts p hto hmem.2
    · rw [if_neg hc]
      by_cases ht : 0 < min (castU64 remaining) (castU64 (i64Abs nd))
      · simp only [if_pos ht]
        have hpools1 : lookupD (setKV
            (setKV pools toPool
              (satAdd64 (lookupD pools toPool 0)
                (min (castU64 remaining) (castU64 (i64Abs nd)))))
            fromPool
            (lookupD (setKV pools toPool
                (satAdd64 (lookupD pools toPool 0)
                  (min (castU64 remaining) (castU64 (i64Abs nd))))) fromPool 0 -
              min (castU64 remaining) (castU64 (i64Abs nd)))) p 0 =
            lookupD pools p 0 := by
          rw [lookupD_setKV_ne _ _ _ _ _ hmem.1, lookupD_setKV_ne _ _ _ _ _ hto]
        by_cases hr : satSubI64 remaining
            (wrapI64 (Int.ofNat (min (castU64 remaining) (castU64 (i64Abs nd))))) ≤ 0
        · rw [if_pos hr]
          exact hpools1
        · rw [if_neg hr]
          rw [execTransfers_lookup_ne toPool rest _ _ _ p hto hmem.2]
          exact hpools1
      · simp only [if_neg ht]
        have hrem : ¬ (remaining ≤ 0) := fun h => hc (Or.inl h)
        rw [if_neg hrem]
        exact execTransfers_lookup_ne toPool rest remaining pools ts p hto hmem.2

theorem rebalanceFold_lookup_ne (negs : List (Protocol × Int)) :
    ∀ (pos : List (Protocol × Int))
      (st : List (Protocol × Nat) × List (Protocol × Protocol × Nat)) (p : Protocol),
      p ∉ pos.map Prod.fst → p ∉ negs.map Prod.fst →
      lookupD (pos.foldl
        (fun st' pd => execTransfers pd.1 negs pd.2 st'.1 st'.2) st).1 p 0 =
        lookupD st.1 p 0
  | [], _, _, _, _ => rfl
  | pd :: rest, st, p, hpos, hneg => by
    simp only [List.map_cons, List.mem_cons, not_or] at hpos
    simp only [List.foldl_cons]
    rw [rebalanceFold_lookup_ne negs rest _ p hpos.2 hneg]
    exact execTransfers_lookup_ne pd.1 negs pd.2 st.1 st.2 p hpos.1 hneg

theorem profileDeltas_keys (W : List (Protocol × Nat)) (alloc : ProfileAllocation) :
    (profileDeltas W alloc).map Prod.fst = W.map Prod.fst := by
  unfold profileDeltas
  rw [List.map_map]
  rfl

/-- C7 (amended): rebalance computes a delta only for the pools named in
the weight map — the delta list's keys are exactly the weight map's keys
— so a pool that holds funds but is absent from the weight map is never
part of any transfer: its balance is unchanged by `rebalance_profile`.
In particular (Scenario C), with the weight map shrunk to
`{Kamino:10000}`, the Drift/Marginfy/Solend balances of the Scenario B
state stay where they are and no transfers are produced, rather than
moving to Kamino. -/
theorem rebalance_untouched_outside_weight_map (W : List (Protocol × Nat))
    (alloc : ProfileAllocation) (p : Protocol) (hp : p ∉ W.map Prod.fst) :
    (profileDeltas W alloc).map Prod.fst = W.map Prod.fst ∧
    lookupD (rebalance_profile W alloc).1.pool_allocations p 0 =
      lookupD alloc.pool_allocations p 0 := by
  refine ⟨profileDeltas_keys W alloc, ?_⟩
  have hkeys := profileDeltas_keys W alloc
  have hs : p ∉ (surplusList W alloc).map Prod.fst := by
    intro hmem
    obtain ⟨q, hq, hq1⟩ := List.mem_map.mp hmem
    have hq' : q ∈ (profileDeltas W alloc).filter fun pd => 0 < pd.2 :=
      (List.perm_insertionSort surplusOrder _).subset hq
    have hq'' : q ∈ profileDeltas W alloc := List.mem_of_mem_filter hq'
    have : p ∈ (profileDeltas W alloc).map Prod.fst :=
      hq1 ▸ List.mem_map_of_mem _ hq''
    rw [hkeys] at this
    exact hp this
  have hd : p ∉ (deficitList W alloc).map Prod.fst := by
    intro hmem
    obtain ⟨q, hq, hq1⟩ := List.mem_map.mp hmem
    have hq' : q ∈ (profileDeltas W alloc).filter fun pd => pd.2 < 0 :=
      (List.perm_insertionSort deficitOrder _).subset hq
    have hq'' : q ∈ profileDeltas W alloc := List.mem_of_mem_filter hq'
    have : p ∈ (profileDeltas W alloc).map Prod.fst :=
      hq1 ▸ List.mem_map_of_mem _ hq''
    rw [hkeys] at this
    exact hp this
  show lookupD ((surplusList W alloc).foldl
      (fun st' pd => execTransfers pd.1 (deficitList W alloc) pd.2 st'.1 st'.2)
      (alloc.pool_allocations, [])).1 p 0 = lookupD alloc.pool_allocations p 0
  exact rebalanceFold_lookup_ne (deficitList W alloc) (surplusList W alloc)
    (alloc.pool_allocations, []) p hs hd

/-- Witness for the amended C7 theorem at the Scenario C input: Drift is
absent from the weight map `{Kamino:10000}`, so its balance is untouched
by the rebalance. -/
theorem rebalance_untouched_outside_weight_map_witness :
    (profileDeltas [(Protocol.Kamino, 10000)] allocScenarioB).map Prod.fst =
      [(Protocol.Kamino, 10000)].map Prod.fst ∧
    lookupD (rebalance_profile [(Protocol.Kamino, 10000)]
        allocScenarioB).1.pool_allocations Protocol.Drift 0 =
      lookupD allocScenarioB.pool_allocations Protocol.Drift 0 :=
  rebalance_untouched_outside_weight_map [(Protocol.Kamino, 10000)] allocScenarioB
    Protocol.Drift (by decide)

/-- C7 (counterexample): from the Scenario B state with the weight map
changed to `{Kamino:10000}`, the claim says all non-Kamino balances move
to Kamino (final Kamino 750,000,000, others 0). The code computes deltas
only for weight-map pools, so there are no deficit pools at all: it
produces zero transfers and leaves every balance unchanged — Kamino stays
at 375,000,000 and Drift at 225,000,000. -/
theorem rebalance_scenario_c_counterexample :
    rebalance_profile [(Protocol.Kamino, 10000)] allocScenarioB =
      (allocScenarioB, []) ∧
    lookupD allocScenarioB.pool_allocations Protocol.Kamino 0 = 375000000 ∧
    lookupD allocScenarioB.pool_allocations Protocol.Drift 0 = 225000000 ∧
    (375000000 : Nat) ≠ 750000000 ∧
    (225000000 : Nat) ≠ 0 := by
  decide

/-- C1: evaluation of the conservation-breaking input. With total `100`
held as `Drift 60, Marginfy 40` and weight map
`{Kamino:4000, Solend:3000, Drift:2000, Marginfy:1000}` (summing to
10,000), the matching loop never decrements a deficit pool's delta, so
the second surplus pool (Solend, need 30) again draws from Drift — which
only has 20 left after Kamino's transfer of 40. The recorded transfer of
30 removes only 20 (`saturating_sub` clamps at zero), so it is not
zero-sum, and the grand total of pool balances grows from 100 to 110. -/
theorem rebalance_conservation_violation :
    sumVals allocOverdraw.pool_allocations = 100 ∧
    (weightsOverdraw.map fun pb => pb.2).sum = 10000 ∧
    lookupD allocOverdraw.pool_allocations Protocol.Drift 0 = 60 ∧
    (rebalance_profile weightsOverdraw allocOverdraw).2 =
      [(Protocol.Drift, Protocol.Kamino, 40), (Protocol.Drift, Protocol.Solend, 30)] ∧
    lookupD (rebalance_profile weightsOverdraw
      allocOverdraw).1.pool_allocations Protocol.Drift 0 = 0 ∧
    sumVals (rebalance_profile weightsOverdraw allocOverdraw).1.pool_allocations =
      110 := by
  decide

end RiskModel

namespace RiskModel

theorem wrapI64_zero : wrapI64 0 = 0 := by decide

theorem rebalance_profile_at_target (W : List (Protocol × Nat))
    (alloc : ProfileAllocation)
    (h : ∀ pb ∈ W, lookupD alloc.pool_allocations pb.1 0 =
      scaleByBps alloc.total_amount pb.2) :
    rebalance_profile W alloc = (alloc, []) := by
  have hdelta : ∀ pd ∈ profileDeltas W alloc, pd.2 = 0 := by
    intro pd hpd
    obtain ⟨pb, hpb, heq⟩ := List.mem_map.mp hpd
    rw [← heq]
    show deltaOf (scaleByBps alloc.total_amount pb.2)
      (lookupD alloc.pool_allocations pb.1 0) = 0
    rw [h pb hpb]
    unfold deltaOf
    rw [if_pos le_rfl, Nat.sub_self]
    exact wrapI64_zero
  have hsur : surplusList W alloc = [] := by
    unfold surplusList
    have hfil : ((profileDeltas W alloc).filter fun pd => 0 < pd.2) = [] := by
      rw [List.filter_eq_nil_iff]
      intro pd hpd
      simp [hdelta pd hpd]
    rw [hfil]
    rfl
  show ({ alloc with pool_allocations := ((surplusList W alloc).foldl
      (fun st' pd => execTransfers pd.1 (deficitList W alloc) pd.2 st'.1 st'.2)
      (alloc.pool_allocations, [])).1 },
    ((surplusList W alloc).foldl
      (fun st' pd => execTransfers pd.1 (deficitList W alloc) pd.2 st'.1 st'.2)
      (alloc.pool_allocations, [])).2) = (alloc, [])
  rw [hsur]
  rfl

theorem flatten_map_nil {γ δ : Type} :
    ∀ (l : List γ), ((l.map fun _ => ([] : List δ)).flatten) = []
  | [] => rfl
  | _ :: rest => by
    simp only [List.map_cons, List.flatten_cons, List.nil_append]
    exact flatten_map_nil rest

/-- C8: rebalance is idempotent at target. If, for every profile in the
portfolio and every pool of its weight map, the pool's current amount
already equals `floor(total_amount * bps / 10000)`, then rebalance
produces zero transfers and leaves every allocation unchanged; the
portfolio's last-rebalance timestamp is still set to the current time. -/
theorem rebalance_idempotent_at_target (wf : RiskProfile → List (Protocol × Nat))
    (P : UserPortfolio) (now : Nat)
    (h : ∀ pa ∈ P.risk_profiles, ∀ pb ∈ wf pa.1,
      lookupD pa.2.pool_allocations pb.1 0 = scaleByBps pa.2.total_amount pb.2) :
    rebalance wf P now = ({ P with last_rebalance := now }, []) := by
  have hmap : P.risk_profiles.map
      (fun pa => (pa.1, rebalance_profile (wf pa.1) pa.2)) =
      P.risk_profiles.map (fun pa =>
        (pa.1, (pa.2, ([] : List (Protocol × Protocol × Nat))))) :=
    List.map_congr_left fun pa hpa => by
      rw [rebalance_profile_at_target (wf pa.1) pa.2 (h pa hpa)]
  have hfields : (P.risk_profiles.map
      (fun pa => (pa.1, rebalance_profile (wf pa.1) pa.2))).map
        (fun r => (r.1, r.2.1)) = P.risk_profiles := by
    rw [hmap, List.map_map]
    have h1 : ((fun r : RiskProfile × ProfileAllocation ×
          List (Protocol × Protocol × Nat) => (r.1, r.2.1)) ∘
        (fun pa : RiskProfile × ProfileAllocation =>
          (pa.1, (pa.2, ([] : List (Protocol × Protocol × Nat)))))) =
        (id : RiskProfile × ProfileAllocation → RiskProfile × ProfileAllocation) :=
      rfl
    rw [h1, List.map_id]
  have hflat : ((P.risk_profiles.map
      (fun pa => (pa.1, rebalance_profile (wf pa.1) pa.2))).map
        (fun r => r.2.2)).flatten = [] := by
    rw [hmap, List.map_map]
    have hconst : ((fun r : RiskProfile × ProfileAllocation ×
          List (Protocol × Protocol × Nat) => r.2.2) ∘
        (fun pa : RiskProfile × ProfileAllocation =>
          (pa.1, (pa.2, ([] : List (Protocol × Protocol × Nat)))))) =
        (fun _ : RiskProfile × ProfileAllocation =>
          ([] : List (Protocol × Protocol × Nat))) := rfl
    rw [hconst]
    exact flatten_map_nil _
  show ({ P with
      risk_profiles := (P.risk_profiles.map
        (fun pa => (pa.1, rebalance_profile (wf pa.1) pa.2))).map
          (fun r => (r.1, r.2.1)),
      last_rebalance := now },
    ((P.risk_profiles.map
      (fun pa => (pa.1, rebalance_profile (wf pa.1) pa.2))).map
        (fun r => r.2.2)).flatten) = ({ P with last_rebalance := now }, [])
  rw [hfields, hflat]

/-- Witness for C8: a High-profile portfolio holding `Kamino 500, Drift
500` of total `1000` under the even weight map `{Kamino:5000, Drift:5000}`
is already at target: rebalance changes nothing but the timestamp and
emits no transfers. -/
theorem rebalance_idempotent_at_target_witness :
    rebalance (fun _ => [(Protocol.Kamino, 5000), (Protocol.Drift, 5000)])
      ⟨0, [(RiskProfile.High,
        ⟨RiskProfile.High, [(Protocol.Kamino, 500), (Protocol.Drift, 500)],
          1000⟩)], 7⟩ 99 =
    (⟨0, [(RiskProfile.High,
      ⟨RiskProfile.High, [(Protocol.Kamino, 500), (Protocol.Drift, 500)],
        1000⟩)], 99⟩, []) :=
  rebalance_idempotent_at_target _ _ 99 (by decide)

/-- C9 (amended): for a fixed iteration order of the underlying maps the
transfer plan is produced from deterministically ordered lists: the
surplus pools are processed sorted by decreasing delta and the deficit
pools by increasing delta (most negative first), each list a permutation
of the corresponding filtered delta list. The sort is the stable sort
(Rust's `sort_by`), so equal-magnitude ties keep the map's iteration
order: no pool-identifier tie-break exists, and plans are reproducible
only for one fixed iteration order, not across differently-ordered runs. -/
theorem rebalance_processing_order (W : List (Protocol × Nat))
    (alloc : ProfileAllocation) :
    (surplusList W alloc).Sorted surplusOrder ∧
    (deficitList W alloc).Sorted deficitOrder ∧
    (surplusList W alloc).Perm
      ((profileDeltas W alloc).filter fun pd => 0 < pd.2) ∧
    (deficitList W alloc).Perm
      ((profileDeltas W alloc).filter fun pd => pd.2 < 0) ∧
    (∀ pd ∈ surplusList W alloc, 0 < pd.2) ∧
    (∀ pd ∈ deficitList W alloc, pd.2 < 0) := by
  refine ⟨List.sorted_insertionSort _ _, List.sorted_insertionSort _ _,
    List.perm_insertionSort _ _, List.perm_insertionSort _ _, ?_, ?_⟩
  · intro pd hpd
    have hmem : pd ∈ (profileDeltas W alloc).filter fun pd' => 0 < pd'.2 :=
      (List.perm_insertionSort surplusOrder _).subset hpd
    simpa using List.of_mem_filter hmem
  · intro pd hpd
    have hmem : pd ∈ (profileDeltas W alloc).filter fun pd' => pd'.2 < 0 :=
      (List.perm_insertionSort deficitOrder _).subset hpd
    simpa using List.of_mem_filter hmem

/-- C9 (counterexample): the transfer plan is not reproducible across
runs and there is no pool-identifier tie-break. The two weight lists are
the same finite map (a permutation — two iteration orders of one
`HashMap`), the allocation has all four delta magnitudes tied at 25, and
the two runs produce different ordered transfer lists (drawing from
Drift in one order and from Marginfy in the other). -/
theorem rebalance_plan_order_counterexample :
    weightsTiedFirst.Perm weightsTiedSecond ∧
    (rebalance_profile weightsTiedFirst allocTied).2 =
      [(Protocol.Drift, Protocol.Kamino, 25),
       (Protocol.Drift, Protocol.Solend, 25)] ∧
    (rebalance_profile weightsTiedSecond allocTied).2 =
      [(Protocol.Marginfy, Protocol.Solend, 25),
       (Protocol.Marginfy, Protocol.Kamino, 25)] ∧
    (rebalance_profile weightsTiedFirst allocTied).2 ≠
      (rebalance_profile weightsTiedSecond allocTied).2 := by
  decide

end RiskModel
